import Mathlib

/-!
Verification development for the React-Lexical-Collaboration repository
(backend CRDT persistence core, `src/backend/src/server.ts` and the
`CustomMongoPersistence` class).

The Yjs CRDT document is embedded shallowly: a document's integrated state
is the set of CRDT operations it has seen, represented canonically as a
strictly increasing list of operation identifiers (`Nat`).  Merging an
update (`Y.applyUpdate`) is set union; the full-state encoding
(`Y.encodeStateAsUpdate`) is the canonical list itself, so equal states
have byte-identical encodings, and an empty document encodes to the empty
list.  Each operation identifier decodes to the shared container it
targets (`opShare`) and the text it contributes (`opText`, empty for
structural or tombstone operations), which grounds the Text Content
Extractor model.
-/

/-- Canonical-form check for an operation list: strictly increasing.
A list in this form is a valid full-state encoding; `decodeUpdate` of
anything else models bytes that `Y.applyUpdate` rejects. -/
def isCanon : List Nat → Bool
  | [] => true
  | [_] => true
  | a :: b :: l => decide (a < b) && isCanon (b :: l)

/-- Insert an operation identifier into a canonical operation list,
keeping it strictly increasing and deduplicated (Yjs integration of a
single operation: the operation log deduplicates by identity). -/
def insertOp (n : Nat) : List Nat → List Nat
  | [] => [n]
  | m :: l =>
    if n < m then n :: m :: l
    else if n = m then m :: l
    else m :: insertOp n l

/-- Merge a decoded update (a set of operations) into a document's
operation set: every received operation is integrated.  This is the
semantics of `Y.applyUpdate` at the operation-log level. -/
def mergeOps (received base : List Nat) : List Nat :=
  received.foldr insertOp base

theorem mem_insertOp {a n : Nat} : ∀ {l : List Nat}, a ∈ insertOp n l ↔ a = n ∨ a ∈ l
  | [] => by simp [insertOp]
  | m :: l => by
    by_cases h1 : n < m
    · simp [insertOp, h1]
    · by_cases h2 : n = m
      · subst h2
        simp [insertOp, h1]
      · have : a ∈ insertOp n l ↔ a = n ∨ a ∈ l := mem_insertOp
        simp [insertOp, h1, h2, this]
        tauto

theorem pairwise_insertOp {n : Nat} :
    ∀ {l : List Nat}, l.Pairwise (· < ·) → (insertOp n l).Pairwise (· < ·)
  | [], _ => by simp [insertOp]
  | m :: l, h => by
    rw [List.pairwise_cons] at h
    obtain ⟨hm, hl⟩ := h
    by_cases h1 : n < m
    · rw [insertOp]
      simp only [if_pos h1]
      rw [List.pairwise_cons]
      refine ⟨?_, ?_⟩
      · intro b hb
        rcases List.mem_cons.mp hb with h | h
        · omega
        · exact Nat.lt_trans h1 (hm b h)
      · rw [List.pairwise_cons]
        exact ⟨hm, hl⟩
    · by_cases h2 : n = m
      · rw [insertOp]
        simp only [if_neg h1, if_pos h2]
        rw [List.pairwise_cons]
        exact ⟨hm, hl⟩
      · rw [insertOp]
        simp only [if_neg h1, if_neg h2]
        rw [List.pairwise_cons]
        refine ⟨?_, pairwise_insertOp hl⟩
        intro b hb
        rcases mem_insertOp.mp hb with h | h
        · omega
        · exact hm b h

theorem isCanon_iff : ∀ (l : List Nat), isCanon l = true ↔ l.Pairwise (· < ·)
  | [] => by simp [isCanon]
  | [a] => by simp [isCanon]
  | a :: b :: l => by
    have ih := isCanon_iff (b :: l)
    rw [isCanon, Bool.and_eq_true, decide_eq_true_iff, ih]
    constructor
    · rintro ⟨hab, hbl⟩
      rw [List.pairwise_cons]
      refine ⟨?_, hbl⟩
      intro c hc
      rcases List.mem_cons.mp hc with h | h
      · omega
      · rw [List.pairwise_cons] at hbl
        exact Nat.lt_trans hab (hbl.1 c h)
    · intro h
      rw [List.pairwise_cons] at h
      exact ⟨h.1 b (List.mem_cons_self _ _), h.2⟩

theorem mem_mergeOps {a : Nat} :
    ∀ {u base : List Nat}, a ∈ mergeOps u base ↔ a ∈ u ∨ a ∈ base
  | [], base => by simp [mergeOps]
  | n :: u, base => by
    have ih : a ∈ mergeOps u base ↔ a ∈ u ∨ a ∈ base := mem_mergeOps
    show a ∈ insertOp n (mergeOps u base) ↔ _
    rw [mem_insertOp, ih]
    simp
    tauto

theorem pairwise_mergeOps :
    ∀ {u base : List Nat}, base.Pairwise (· < ·) → (mergeOps u base).Pairwise (· < ·)
  | [], _, h => h
  | _ :: _, _, h => pairwise_insertOp (pairwise_mergeOps h)

theorem canon_mergeOps {u base : List Nat} (h : isCanon base = true) :
    isCanon (mergeOps u base) = true :=
  (isCanon_iff _).mpr (pairwise_mergeOps ((isCanon_iff _).mp h))

theorem insertOp_of_lt_head {n : Nat} :
    ∀ {l : List Nat}, (∀ b ∈ l, n < b) → insertOp n l = n :: l
  | [], _ => rfl
  | m :: l, h => by
    rw [insertOp]
    simp only [if_pos (h m (List.mem_cons_self _ _))]

theorem mergeOps_nil : ∀ {l : List Nat}, l.Pairwise (· < ·) → mergeOps l [] = l
  | [], _ => rfl
  | n :: l, h => by
    rw [List.pairwise_cons] at h
    show insertOp n (mergeOps l []) = n :: l
    rw [mergeOps_nil h.2, insertOp_of_lt_head h.1]

/-- Two strictly increasing lists with the same members are equal:
canonical full-state encodings are unique per operation set. -/
theorem sorted_ext :
    ∀ {l r : List Nat}, l.Pairwise (· < ·) → r.Pairwise (· < ·) →
      (∀ a, a ∈ l ↔ a ∈ r) → l = r
  | [], [], _, _, _ => rfl
  | [], b :: r, _, _, hm => absurd ((hm b).mpr (List.mem_cons_self _ _)) (by simp)
  | a :: l, [], _, _, hm => absurd ((hm a).mp (List.mem_cons_self _ _)) (by simp)
  | a :: l, b :: r, hl, hr, hm => by
    rw [List.pairwise_cons] at hl hr
    have hab : a = b := by
      have ha : a ∈ b :: r := (hm a).mp (List.mem_cons_self _ _)
      have hb : b ∈ a :: l := (hm b).mpr (List.mem_cons_self _ _)
      rcases List.mem_cons.mp ha with h | h
      · exact h
      · rcases List.mem_cons.mp hb with h' | h'
        · exact h'.symm
        · have := hr.1 a h
          have := hl.1 b h'
          omega
    subst hab
    have htail : ∀ x, x ∈ l ↔ x ∈ r := by
      intro x
      constructor
      · intro hx
        have hax : a < x := hl.1 x hx
        rcases List.mem_cons.mp ((hm x).mp (List.mem_cons_of_mem _ hx)) with h | h
        · omega
        · exact h
      · intro hx
        have hax : a < x := hr.1 x hx
        rcases List.mem_cons.mp ((hm x).mpr (List.mem_cons_of_mem _ hx)) with h | h
        · omega
        · exact h
    rw [sorted_ext hl.2 hr.2 htail]

/-! ## The Yjs document model

An operation identifier `n` decodes as: it targets the shared container
named `opShare n` and contributes the text `opText n` (the empty string
for structural, map, or tombstone operations that carry no visible text).
-/

/-- Names of shared containers, by index: the conventional names the
backend's extractor probes, plus generic names for other containers. -/
def shareNameOfIdx : Nat → String
  | 0 => "content"
  | 1 => "lexical"
  | 2 => "root"
  | 3 => "editor"
  | k + 4 => "shared" ++ Nat.repr k

/-- The shared container an operation targets. -/
def opShare (n : Nat) : String := shareNameOfIdx (n % 8)

/-- The visible text an operation contributes: none for structural or
deleted (tombstone) operations, a single character otherwise. -/
def opText (n : Nat) : String :=
  match n / 8 with
  | 0 => ""
  | m + 1 => String.mk [Char.ofNat m]

/-- A live Yjs document (`Y.Doc`): the set of integrated CRDT operations
in canonical form, plus the names of shared containers that were
instantiated in the share registry without holding any operation
(e.g. by `getText` on an absent name). -/
structure YDoc where
  ops : List Nat
  extraShares : List String
  canon : isCanon ops = true

/-- A fresh empty document (`new Y.Doc()`). -/
def emptyDoc : YDoc := ⟨[], [], rfl⟩

/-- The document's share registry (`ydoc.share`): names of all shared
containers present, each listed once. -/
def YDoc.shareNames (d : YDoc) : List String :=
  (d.ops.map opShare ++ d.extraShares).dedup

/-- Full-state encoding (`Y.encodeStateAsUpdate`): the canonical
operation list itself, so the empty document encodes to zero bytes and
equal states encode byte-identically. -/
def encodeStateAsUpdate (d : YDoc) : List Nat := d.ops

/-- Decoding update bytes: succeeds exactly on canonical encodings;
`none` models bytes on which `Y.applyUpdate` throws. -/
def decodeUpdate (bs : List Nat) : Option (List Nat) :=
  if isCanon bs then some bs else none

/-- Apply an update to a document (`Y.applyUpdate(doc, bs)`): decode and
merge every received operation into the document's operation set.  The
share registry gains no instantiated-only entries (incoming operations
carry their containers through `opShare`). -/
def applyDocUpdate (d : YDoc) (bs : List Nat) : YDoc :=
  if _h : isCanon bs = true then
    ⟨mergeOps bs d.ops, d.extraShares, canon_mergeOps d.canon⟩
  else d

theorem decodeUpdate_encode (d : YDoc) : decodeUpdate (encodeStateAsUpdate d) = some d.ops := by
  rw [decodeUpdate, encodeStateAsUpdate, if_pos d.canon]

theorem applyDocUpdate_encode (d p : YDoc) :
    (applyDocUpdate d (encodeStateAsUpdate p)).ops = mergeOps p.ops d.ops := by
  rw [applyDocUpdate]
  simp only [encodeStateAsUpdate, dif_pos p.canon]

theorem applyDocUpdate_ops {d : YDoc} {bs : List Nat} {u : List Nat}
    (h : decodeUpdate bs = some u) : (applyDocUpdate d bs).ops = mergeOps u d.ops := by
  rw [decodeUpdate] at h
  by_cases hc : isCanon bs = true
  · rw [if_pos hc] at h
    cases h
    rw [applyDocUpdate]
    simp only [dif_pos hc]
  · rw [if_neg hc] at h
    cases h

/-! ## The Text Content Extractor (`TextExtractor.extractTextFromYDoc`)

The extractor probes, in order, the shared types named `content` (via
`ydoc.getText`), `lexical` (`getText`), `root` (`ydoc.get`, gated on
trimmed text), and `editor` (`getText`), returning the first non-empty
text found; otherwise it falls back to concatenating the text of every
container in the share registry.  Each probe instantiates the probed
name in the registry when it is absent (`getText`/`get` create the type
as a side effect).  Share-registry iteration order is modelled
canonically (operation order / probe order); the claims below depend
only on membership and per-container text.  The whole body is wrapped
in try/catch in the source and always returns a string, which the model
reflects by being a total function.
-/

/-- Concatenation of a list of strings (accumulation in the extractor's
fallback loop). -/
def strJoin : List String → String
  | [] => ""
  | s :: l => s ++ strJoin l

/-- The visible text of one named shared container: the concatenated
text of the operations targeting it, in canonical order. -/
def shareText (ops : List Nat) (name : String) : String :=
  strJoin ((ops.filter (fun n => opShare n == name)).map opText)

/-- Whether a string still has content after `trim()` — the gate the
extractor applies to the `root` container's text. -/
def hasNonWhitespace (s : String) : Bool :=
  s.data.any (fun c => !c.isWhitespace)

/-- The registry side effect of probing a named shared container
(`ydoc.getText(name)` / `ydoc.get(name)`): the name is instantiated in
the share registry when absent. -/
def instantiateShare (d : YDoc) (name : String) : YDoc :=
  if name ∈ d.shareNames then d
  else ⟨d.ops, d.extraShares ++ [name], d.canon⟩

/-- Probe one named shared container (`ydoc.getText(name)` /
`ydoc.get(name)`): read its text, instantiating the name in the share
registry when absent. -/
def getTextShared (d : YDoc) (name : String) : String × YDoc :=
  (shareText d.ops name, instantiateShare d name)

/-- Fallback: concatenate the text of every container in the share
registry (instantiated-only containers contribute the empty string). -/
def fallbackConcat (d : YDoc) : String :=
  strJoin (d.shareNames.map (shareText d.ops))

/-- The Text Content Extractor, returning the extracted text and the
document as mutated by the probes' registry side effects.  Probing does
not change `ops`, so every gate reads `shareText d.ops`; the returned
document carries the registry side effects of exactly the probes made
before returning. -/
def extractTextFromYDoc (d : YDoc) : String × YDoc :=
  if 0 < (shareText d.ops "content").length then
    getTextShared d "content"
  else if 0 < (shareText d.ops "lexical").length then
    getTextShared (instantiateShare d "content") "lexical"
  else if hasNonWhitespace (shareText d.ops "root") then
    getTextShared (instantiateShare (instantiateShare d "content") "lexical") "root"
  else if 0 < (shareText d.ops "editor").length then
    getTextShared
      (instantiateShare (instantiateShare (instantiateShare d "content") "lexical") "root")
      "editor"
  else
    (fallbackConcat
        (instantiateShare
          (instantiateShare (instantiateShare (instantiateShare d "content") "lexical") "root")
          "editor"),
      instantiateShare
        (instantiateShare (instantiateShare (instantiateShare d "content") "lexical") "root")
        "editor")

/-- The extracted text alone (the value the persistence hooks branch on). -/
def extractTextValue (d : YDoc) : String := (extractTextFromYDoc d).1

/-! ## The persistence store (`CustomMongoPersistence`)

One MongoDB record per document id: a `stateVector` field (the snapshot
bytes, normally a `Buffer`, read back as the driver's `Binary`) and an
`updatedAt` timestamp.  The snapshot field's runtime shape matters to the
defensive code, so it is modelled as a sum of the shapes the source
distinguishes.
-/

/-- The runtime shape of a stored `stateVector` field. -/
inductive SnapField
  /-- A Node `Buffer` holding the snapshot bytes. -/
  | buffer (bs : List Nat)
  /-- The MongoDB driver's `Binary` wrapper (whose `length` property is a
  method) holding the snapshot bytes. -/
  | binary (bs : List Nat)
  /-- Any other object with a numeric `length` property, cast to
  `Uint8Array` by the source (`'length' in stateVector`). -/
  | arraylike (bs : List Nat)
  /-- A value whose `length` property is itself a function and whose
  constructor is not `Binary`: the shape `getYDoc` flags as corrupted. -/
  | lengthFn
  /-- Any other unexpected shape (string, number, plain object without
  `length`, ...): not convertible, not flagged as corrupted. -/
  | strange
deriving DecidableEq

/-- The snapshot bytes obtainable from a stored field, if its shape is
convertible to a `Uint8Array` (the three conversion branches of
`getYDoc`/`storeUpdate`). -/
def snapBytes : Option SnapField → Option (List Nat)
  | some (.buffer bs) => some bs
  | some (.binary bs) => some bs
  | some (.arraylike bs) => some bs
  | _ => none

/-- One persisted record: `{ stateVector, updatedAt }` (the `_id` is the
store key). `snapshot = none` models an absent/unset `stateVector`. -/
structure MongoRecord where
  snapshot : Option SnapField
  updatedAt : Nat
deriving DecidableEq

/-- The collection: a map from document id to its record. -/
def Store := String → Option MongoRecord

namespace CustomMongoPersistence

/-- `fixCorruptedDocument(docName)`: re-fetch the record; when its
`stateVector`'s `length` property is a function and it is not the
driver's `Binary`, `$unset` the field and refresh `updatedAt`; otherwise
leave the store untouched. -/
def fixCorruptedDocument (docName : String) (store : Store) (now : Nat) : Store :=
  match store docName with
  | none => store
  | some r =>
    match r.snapshot with
    | some .lengthFn =>
      Function.update store docName (some { snapshot := none, updatedAt := now })
    | _ => store

/-- `getYDoc(docName)`: fetch the record; on the corrupted shape, fix the
record and return a fresh document; otherwise convert the field to bytes,
and when they are non-empty apply them to a fresh document (a decode
failure is caught and yields a fresh document).  Every other case returns
a fresh empty document.  Returns the document together with the possibly
repaired store. -/
def getYDoc (docName : String) (store : Store) (now : Nat) : YDoc × Store :=
  match store docName with
  | none => (emptyDoc, store)
  | some r =>
    match r.snapshot with
    | none => (emptyDoc, store)
    | some .lengthFn => (emptyDoc, fixCorruptedDocument docName store now)
    | some .strange => (emptyDoc, store)
    | some (.buffer bs) | some (.binary bs) | some (.arraylike bs) =>
      if 0 < bs.length then
        match decodeUpdate bs with
        | some _ => (applyDocUpdate emptyDoc bs, store)
        | none => (emptyDoc, store)
      else (emptyDoc, store)

/-- The existing snapshot bytes `storeUpdate` starts from: the record's
`stateVector` converted to bytes when its shape allows, `none` when no
record exists or the shape is not convertible. -/
def existingSnapshotBytes (rec : Option MongoRecord) : Option (List Nat) :=
  match rec with
  | none => none
  | some r => snapBytes r.snapshot

/-- The scratch document (`tempDoc`) `storeUpdate` builds from the
existing snapshot bytes: fresh and empty when there are no bytes or they
are empty, the decoded snapshot otherwise; `none` models
`Y.applyUpdate` throwing on undecodable existing bytes, which the
`catch` turns into no write at all. -/
def scratchFromExisting (exBytes : Option (List Nat)) : Option YDoc :=
  match exBytes with
  | none => some emptyDoc
  | some bs =>
    if 0 < bs.length then
      match decodeUpdate bs with
      | some _ => some (applyDocUpdate emptyDoc bs)
      | none => none
    else some emptyDoc

/-- The tail of `storeUpdate`: apply the incoming update to the scratch
document (an undecodable update throws and aborts the write), re-encode
the scratch document's full state and upsert it with a refreshed
timestamp.  No scratch document (existing snapshot failed to decode)
means the write was aborted by the `catch`. -/
def commitMerged (docName : String) (update : List Nat) (store : Store) (now : Nat) :
    Option YDoc → Store
  | none => store
  | some temp =>
    match decodeUpdate update with
    | none => store
    | some _ =>
      Function.update store docName
        (some { snapshot := some (.buffer (encodeStateAsUpdate (applyDocUpdate temp update))),
                updatedAt := now })

/-- `storeUpdate(docName, update)`: read the existing record, convert its
snapshot to bytes when the shape allows, decode non-empty bytes into a
scratch document, apply the incoming update to it, re-encode the scratch
document's full state and upsert it with a refreshed timestamp. -/
def storeUpdate (docName : String) (update : List Nat) (store : Store) (now : Nat) : Store :=
  commitMerged docName update store now
    (scratchFromExisting (existingSnapshotBytes (store docName)))

/-- `writeState(docName, ydoc)` (store level): encode the document's full
state and upsert it with a refreshed timestamp, unless the encoding is
empty, in which case nothing is written. -/
def writeState (docName : String) (d : YDoc) (store : Store) (now : Nat) : Store :=
  let stateVector := encodeStateAsUpdate d
  if 0 < stateVector.length then
    Function.update store docName
      (some { snapshot := some (.buffer stateVector), updatedAt := now })
  else store

end CustomMongoPersistence

/-- The `writeState` hook installed by `setPersistence`: extract the
document's text and skip the write entirely when it is empty; otherwise
delegate to the store-level `writeState`. -/
def writeStateHook (docName : String) (d : YDoc) (store : Store) (now : Nat) : Store :=
  if (extractTextValue d).length = 0 then store
  else CustomMongoPersistence.writeState docName d store now

/-! ## Lemmas about the extractor -/

theorem append_eq_empty_iff {s t : String} : s ++ t = "" ↔ s = "" ∧ t = "" := by
  constructor
  · intro h
    have hd : (s ++ t).data = [] := by rw [h]
    rw [String.data_append] at hd
    rcases List.append_eq_nil.mp hd with ⟨h1, h2⟩
    exact ⟨String.ext h1, String.ext h2⟩
  · rintro ⟨h1, h2⟩
    rw [h1, h2]
    rfl

theorem strJoin_eq_empty_iff : ∀ {l : List String}, strJoin l = "" ↔ ∀ s ∈ l, s = ""
  | [] => by simp [strJoin]
  | s :: l => by
    rw [strJoin, append_eq_empty_iff, strJoin_eq_empty_iff]
    simp

theorem string_ne_empty_of_length_pos {s : String} (h : 0 < s.length) : s ≠ "" := by
  intro hs
  rw [hs] at h
  simp [String.length] at h

theorem hasNonWhitespace_ne_empty {s : String} (h : hasNonWhitespace s = true) : s ≠ "" := by
  intro hs
  rw [hs] at h
  simp [hasNonWhitespace] at h

theorem shareText_empty_iff {ops : List Nat} {name : String} :
    shareText ops name = "" ↔ ∀ n ∈ ops, opShare n = name → opText n = "" := by
  rw [shareText, strJoin_eq_empty_iff]
  constructor
  · intro h n hn hsh
    exact h (opText n) (List.mem_map_of_mem _ (List.mem_filter.mpr ⟨hn, by simp [hsh]⟩))
  · intro h s hs
    rcases List.mem_map.mp hs with ⟨n, hn, rfl⟩
    rcases List.mem_filter.mp hn with ⟨hmem, hb⟩
    exact h n hmem (by simpa using hb)

@[simp] theorem instantiateShare_ops (d : YDoc) (name : String) :
    (instantiateShare d name).ops = d.ops := by
  rw [instantiateShare]
  split <;> rfl

theorem mem_shareNames_instantiateShare {d : YDoc} {name : String} (nm : String)
    (h : name ∈ d.shareNames) : name ∈ (instantiateShare d nm).shareNames := by
  rw [instantiateShare]
  split
  · exact h
  · rw [YDoc.shareNames] at h ⊢
    rw [List.mem_dedup] at h ⊢
    simp only [List.mem_append] at h ⊢
    rcases h with h | h
    · exact Or.inl h
    · exact Or.inr (by simp [h])

theorem fallbackConcat_empty_iff {d : YDoc} :
    fallbackConcat d = "" ↔ ∀ n ∈ d.ops, opText n = "" := by
  rw [fallbackConcat, strJoin_eq_empty_iff]
  constructor
  · intro h n hn
    have hmem : opShare n ∈ d.shareNames := by
      rw [YDoc.shareNames, List.mem_dedup, List.mem_append]
      exact Or.inl (List.mem_map_of_mem _ hn)
    have := h (shareText d.ops (opShare n)) (List.mem_map_of_mem _ hmem)
    exact shareText_empty_iff.mp this n hn rfl
  · intro h s hs
    rcases List.mem_map.mp hs with ⟨name, _, rfl⟩
    exact shareText_empty_iff.mpr (fun n hn _ => h n hn)

theorem shareText_all_empty {ops : List Nat} {name : String}
    (h : ∀ n ∈ ops, opText n = "") : shareText ops name = "" :=
  shareText_empty_iff.mpr (fun n hn _ => h n hn)

theorem getTextShared_fst (d : YDoc) (name : String) :
    (getTextShared d name).1 = shareText d.ops name := rfl

/-- The extracted text is empty exactly when no integrated operation
carries visible text: the extractor's emptiness judgement is a function
of the document's operation set alone (in particular it ignores
instantiated-only registry entries). -/
theorem extractTextValue_empty_iff (d : YDoc) :
    extractTextValue d = "" ↔ ∀ n ∈ d.ops, opText n = "" := by
  by_cases h1 : 0 < (shareText d.ops "content").length
  · rw [extractTextValue, extractTextFromYDoc, if_pos h1, getTextShared_fst]
    exact iff_of_false (string_ne_empty_of_length_pos h1)
      (fun hall => string_ne_empty_of_length_pos h1 (shareText_all_empty hall))
  · by_cases h2 : 0 < (shareText d.ops "lexical").length
    · rw [extractTextValue, extractTextFromYDoc, if_neg h1, if_pos h2, getTextShared_fst,
        instantiateShare_ops]
      exact iff_of_false (string_ne_empty_of_length_pos h2)
        (fun hall => string_ne_empty_of_length_pos h2 (shareText_all_empty hall))
    · by_cases h3 : hasNonWhitespace (shareText d.ops "root") = true
      · rw [extractTextValue, extractTextFromYDoc, if_neg h1, if_neg h2, if_pos h3,
          getTextShared_fst, instantiateShare_ops, instantiateShare_ops]
        exact iff_of_false (hasNonWhitespace_ne_empty h3)
          (fun hall => hasNonWhitespace_ne_empty h3 (shareText_all_empty hall))
      · by_cases h4 : 0 < (shareText d.ops "editor").length
        · rw [extractTextValue, extractTextFromYDoc, if_neg h1, if_neg h2, if_neg h3,
            if_pos h4, getTextShared_fst, instantiateShare_ops, instantiateShare_ops,
            instantiateShare_ops]
          exact iff_of_false (string_ne_empty_of_length_pos h4)
            (fun hall => string_ne_empty_of_length_pos h4 (shareText_all_empty hall))
        · rw [extractTextValue, extractTextFromYDoc, if_neg h1, if_neg h2, if_neg h3,
            if_neg h4, fallbackConcat_empty_iff]
          simp only [instantiateShare_ops]

/-! ## Claim theorems: CRDT merge algebra (bindState merge, storeUpdate merge) -/

theorem string_length_eq_zero_iff {s : String} : s.length = 0 ↔ s = "" := by
  constructor
  · intro h
    exact String.ext (List.length_eq_zero.mp h)
  · intro h
    rw [h]
    rfl

/-- Local mutation sequence: a replica integrates each operation of the
sequence into its log (the origin of the update events `bindState`
listens to). -/
def applyOps (d : YDoc) (newOps : List Nat) : YDoc :=
  ⟨mergeOps newOps d.ops, d.extraShares, canon_mergeOps d.canon⟩

theorem applyOps_ops (d : YDoc) (newOps : List Nat) :
    (applyOps d newOps).ops = mergeOps newOps d.ops := rfl

theorem mem_applyDocUpdate {a : Nat} (d : YDoc) {bs : List Nat} (h : isCanon bs = true) :
    a ∈ (applyDocUpdate d bs).ops ↔ a ∈ bs ∨ a ∈ d.ops := by
  rw [applyDocUpdate]
  simp only [dif_pos h]
  exact mem_mergeOps

/-- Claim C5: merging a persisted snapshot into a live in-memory document
(`Y.applyUpdate(ydoc, Y.encodeStateAsUpdate(persistedYdoc))` in
`bindState`) never removes the live document's pre-merge content: the
post-merge full-state encoding contains every operation of the live
document's encoding and every operation of the persisted snapshot. -/
theorem bindState_merge_no_clobber (live persisted : YDoc) :
    encodeStateAsUpdate live
        ⊆ encodeStateAsUpdate (applyDocUpdate live (encodeStateAsUpdate persisted))
      ∧ encodeStateAsUpdate persisted
        ⊆ encodeStateAsUpdate (applyDocUpdate live (encodeStateAsUpdate persisted)) := by
  constructor <;> intro a ha <;>
    rw [encodeStateAsUpdate, applyDocUpdate_encode, mem_mergeOps]
  · exact Or.inr ha
  · exact Or.inl ha

/-- Claim C7: for any two operation sequences applied to independent
replicas of the same initial document, merging the replicas' full-state
updates in either order yields byte-identical full-state encodings
(convergence). -/
theorem merge_convergence (d : YDoc) (opsA opsB : List Nat) :
    encodeStateAsUpdate
        (applyDocUpdate (applyDocUpdate d (encodeStateAsUpdate (applyOps d opsA)))
          (encodeStateAsUpdate (applyOps d opsB)))
      = encodeStateAsUpdate
        (applyDocUpdate (applyDocUpdate d (encodeStateAsUpdate (applyOps d opsB)))
          (encodeStateAsUpdate (applyOps d opsA))) := by
  apply sorted_ext ((isCanon_iff _).mp (YDoc.canon _)) ((isCanon_iff _).mp (YDoc.canon _))
  intro a
  simp only [encodeStateAsUpdate]
  rw [mem_applyDocUpdate _ (YDoc.canon _), mem_applyDocUpdate _ (YDoc.canon _),
    mem_applyDocUpdate _ (YDoc.canon _), mem_applyDocUpdate _ (YDoc.canon _)]
  simp only [applyOps_ops, mem_mergeOps]
  tauto

/-! ## Claim theorems: the write paths -/

/-- A store with one existing persisted record, used to exhibit that
skipped writes leave existing records intact. -/
def exampleStore : Store :=
  fun i => if i = "doc1" then some { snapshot := some (.buffer [3, 11]), updatedAt := 42 }
  else none

/-- Claim C1: calling the `writeState` persistence hook (writeFullState)
on a document whose full-state encoding has zero length performs no
write: the store — including any existing record's snapshot bytes and
`updatedAt` — is left unchanged, on both the hook path and the
store-level path. -/
theorem writeFullState_empty_write_skipped (docName : String) (d : YDoc) (store : Store)
    (now : Nat) (h : encodeStateAsUpdate d = []) :
    writeStateHook docName d store now = store
      ∧ CustomMongoPersistence.writeState docName d store now = store := by
  have hops : d.ops = [] := h
  have hval : extractTextValue d = "" :=
    (extractTextValue_empty_iff d).mpr (by rw [hops]; simp)
  constructor
  · rw [writeStateHook, if_pos (by rw [hval]; rfl)]
  · simp [CustomMongoPersistence.writeState, encodeStateAsUpdate, hops]

theorem writeFullState_empty_write_skipped_witness :
    writeStateHook "doc1" emptyDoc exampleStore 7 = exampleStore
      ∧ CustomMongoPersistence.writeState "doc1" emptyDoc exampleStore 7 = exampleStore :=
  writeFullState_empty_write_skipped "doc1" emptyDoc exampleStore 7 rfl

/-- Claim C6 (amended): the persistence decisions of the writeFullState
paths are determined by the canonical full-state encoding alone — two
documents with identical encodings produce identical store outcomes on
both the hook path and the store-level path, whatever their share
registries look like.  (The `storeUpdate` path takes only the update
bytes and never consults the extractor.) -/
theorem write_decisions_encoding_determined (docName : String) (d1 d2 : YDoc)
    (store : Store) (now : Nat) (h : encodeStateAsUpdate d1 = encodeStateAsUpdate d2) :
    writeStateHook docName d1 store now = writeStateHook docName d2 store now
      ∧ CustomMongoPersistence.writeState docName d1 store now
        = CustomMongoPersistence.writeState docName d2 store now := by
  have hops : d1.ops = d2.ops := h
  have hval : extractTextValue d1 = "" ↔ extractTextValue d2 = "" := by
    rw [extractTextValue_empty_iff, extractTextValue_empty_iff, hops]
  have hw : CustomMongoPersistence.writeState docName d1 store now
      = CustomMongoPersistence.writeState docName d2 store now := by
    simp only [CustomMongoPersistence.writeState]
    rw [show encodeStateAsUpdate d1 = encodeStateAsUpdate d2 from h]
  refine ⟨?_, hw⟩
  rw [writeStateHook, writeStateHook]
  by_cases hc : (extractTextValue d1).length = 0
  · rw [if_pos hc,
      if_pos (string_length_eq_zero_iff.mpr (hval.mp (string_length_eq_zero_iff.mp hc)))]
  · rw [if_neg hc, if_neg (fun hc2 => hc
      (string_length_eq_zero_iff.mpr (hval.mpr (string_length_eq_zero_iff.mp hc2)))), hw]

theorem write_decisions_encoding_determined_witness :
    writeStateHook "doc1" ⟨[786], [], rfl⟩ exampleStore 7
        = writeStateHook "doc1" ⟨[786], ["misc"], rfl⟩ exampleStore 7
      ∧ CustomMongoPersistence.writeState "doc1" ⟨[786], [], rfl⟩ exampleStore 7
        = CustomMongoPersistence.writeState "doc1" ⟨[786], ["misc"], rfl⟩ exampleStore 7 :=
  write_decisions_encoding_determined "doc1" ⟨[786], [], rfl⟩ ⟨[786], ["misc"], rfl⟩
    exampleStore 7 rfl

/-- A document holding one structural (text-free) operation in the
`content` container: its full-state encoding is non-empty while its
extracted text is empty. -/
def structuralOnlyDoc : YDoc := ⟨[0], [], rfl⟩

/-- A store with no records. -/
def emptyStore : Store := fun _ => none

/-- Claim C6 counterexample: the writeFullState hook short-circuits the
write for a document whose canonical encode is non-empty — the extracted
text's emptiness, not only the canonical encode's own emptiness, gates
the write, contradicting the claim as stated. -/
theorem write_shortcircuit_counterexample :
    writeStateHook "doc1" structuralOnlyDoc emptyStore 5 = emptyStore
      ∧ encodeStateAsUpdate structuralOnlyDoc ≠ [] :=
  ⟨rfl, by decide⟩

/-! ## Claim theorems: loading (`getYDoc`) -/

/-- Claim C3 (amended): `getYDoc` always returns a document and never
throws: when the record is absent, the snapshot field is missing, the
stored snapshot is empty (zero-length bytes), the snapshot bytes fail to
decode, or the field has an unexpected non-convertible shape, a fresh
empty document is returned with the store unchanged; the snapshot field
is stripped from the record (with a refreshed `updatedAt`) only for the
corrupted shape whose `length` property is a function (and is not the
driver's `Binary`). -/
theorem getYDoc_load_spec (docName : String) (store : Store) (now : Nat) :
    (store docName = none →
        CustomMongoPersistence.getYDoc docName store now = (emptyDoc, store))
      ∧ (∀ r : MongoRecord, store docName = some r → r.snapshot = none →
          CustomMongoPersistence.getYDoc docName store now = (emptyDoc, store))
      ∧ (∀ (r : MongoRecord) (bs : List Nat), store docName = some r →
          snapBytes r.snapshot = some bs → bs.length = 0 →
          CustomMongoPersistence.getYDoc docName store now = (emptyDoc, store))
      ∧ (∀ (r : MongoRecord) (bs : List Nat), store docName = some r →
          snapBytes r.snapshot = some bs → decodeUpdate bs = none →
          CustomMongoPersistence.getYDoc docName store now = (emptyDoc, store))
      ∧ (∀ r : MongoRecord, store docName = some r → r.snapshot = some .strange →
          CustomMongoPersistence.getYDoc docName store now = (emptyDoc, store))
      ∧ (∀ r : MongoRecord, store docName = some r → r.snapshot = some .lengthFn →
          CustomMongoPersistence.getYDoc docName store now
            = (emptyDoc,
                Function.update store docName
                  (some { snapshot := none, updatedAt := now }))) := by
  refine ⟨?_, ?_, ?_, ?_, ?_, ?_⟩
  · intro h
    simp only [CustomMongoPersistence.getYDoc]
    rw [h]
  · rintro ⟨snap, ts⟩ hr hs
    simp only at hs
    subst hs
    simp only [CustomMongoPersistence.getYDoc]
    rw [hr]
  · rintro ⟨snap, ts⟩ bs hr hb hlen
    simp only at hb
    have hneg : ¬ 0 < bs.length := by omega
    have hshape : snap = some (.buffer bs) ∨ snap = some (.binary bs)
        ∨ snap = some (.arraylike bs) := by
      rcases snap with _ | sf
      · simp [snapBytes] at hb
      · cases sf <;> simp_all [snapBytes]
    rcases hshape with hs | hs | hs <;>
      · subst hs
        simp only [CustomMongoPersistence.getYDoc]
        rw [hr]
        show (if 0 < bs.length then
            match decodeUpdate bs with
            | some _ => (applyDocUpdate emptyDoc bs, store)
            | none => (emptyDoc, store)
          else (emptyDoc, store)) = (emptyDoc, store)
        rw [if_neg hneg]
  · rintro ⟨snap, ts⟩ bs hr hb hd
    simp only at hb
    have hpos : 0 < bs.length := by
      rcases bs with _ | ⟨b, bs'⟩
      · simp [decodeUpdate, isCanon] at hd
      · simp
    have hshape : snap = some (.buffer bs) ∨ snap = some (.binary bs)
        ∨ snap = some (.arraylike bs) := by
      rcases snap with _ | sf
      · simp [snapBytes] at hb
      · cases sf <;> simp_all [snapBytes]
    rcases hshape with hs | hs | hs <;>
      · subst hs
        simp only [CustomMongoPersistence.getYDoc]
        rw [hr]
        show (if 0 < bs.length then
            match decodeUpdate bs with
            | some _ => (applyDocUpdate emptyDoc bs, store)
            | none => (emptyDoc, store)
          else (emptyDoc, store)) = (emptyDoc, store)
        rw [if_pos hpos, hd]
  · rintro ⟨snap, ts⟩ hr hs
    simp only at hs
    subst hs
    simp only [CustomMongoPersistence.getYDoc]
    rw [hr]
  · rintro ⟨snap, ts⟩ hr hs
    simp only at hs
    subst hs
    simp only [CustomMongoPersistence.getYDoc, CustomMongoPersistence.fixCorruptedDocument]
    rw [hr]

/-- A store whose one record has the function-`length` corrupted
snapshot shape. -/
def corruptStore : Store :=
  fun i => if i = "docA" then some { snapshot := some .lengthFn, updatedAt := 1 } else none

theorem getYDoc_load_spec_witness :
    CustomMongoPersistence.getYDoc "docA" corruptStore 9
      = (emptyDoc,
          Function.update corruptStore "docA" (some { snapshot := none, updatedAt := 9 })) :=
  (getYDoc_load_spec "docA" corruptStore 9).2.2.2.2.2
    { snapshot := some .lengthFn, updatedAt := 1 } rfl rfl

/-- A store whose one record has a non-convertible unexpected snapshot
shape (e.g. a string-valued field). -/
def strangeStore : Store :=
  fun i => if i = "docB" then some { snapshot := some .strange, updatedAt := 5 } else none

/-- Claim C3 counterexample: on a record whose snapshot field has an
unexpected shape that is not the function-`length` kind, `getYDoc`
returns a fresh empty document but leaves the record intact — the field
is not stripped, contradicting the claim as stated. -/
theorem corruption_strip_counterexample :
    (CustomMongoPersistence.getYDoc "docB" strangeStore 9).1 = emptyDoc
      ∧ (CustomMongoPersistence.getYDoc "docB" strangeStore 9).2 "docB"
        = some { snapshot := some .strange, updatedAt := 5 } :=
  ⟨rfl, rfl⟩

/-- The scratch-base bytes decision of `storeUpdate`: empty when there
are no convertible bytes or they are empty, the decoded snapshot
otherwise (`none` when the bytes fail to decode, aborting the write). -/
def mergeBaseOfBytes : Option (List Nat) → Option (List Nat)
  | none => some []
  | some bs => if 0 < bs.length then decodeUpdate bs else some []

/-- The operation set of the scratch document `storeUpdate` merges into. -/
def storedMergeBase (rec : Option MongoRecord) : Option (List Nat) :=
  mergeBaseOfBytes (CustomMongoPersistence.existingSnapshotBytes rec)

theorem decodeUpdate_some_canon {bs u : List Nat} (h : decodeUpdate bs = some u) :
    isCanon bs = true ∧ u = bs := by
  rw [decodeUpdate] at h
  by_cases hc : isCanon bs = true
  · rw [if_pos hc] at h
    cases h
    exact ⟨hc, rfl⟩
  · rw [if_neg hc] at h
    cases h

theorem scratchFromExisting_of_mergeBase {rec : Option MongoRecord} {base : List Nat}
    (hb : storedMergeBase rec = some base) :
    ∃ temp : YDoc,
      CustomMongoPersistence.scratchFromExisting
          (CustomMongoPersistence.existingSnapshotBytes rec) = some temp
        ∧ temp.ops = base := by
  rw [storedMergeBase] at hb
  rcases hex : CustomMongoPersistence.existingSnapshotBytes rec with _ | bs
  · rw [hex, mergeBaseOfBytes] at hb
    cases hb
    exact ⟨emptyDoc, rfl, rfl⟩
  · rw [hex, mergeBaseOfBytes] at hb
    by_cases hpos : 0 < bs.length
    · rw [if_pos hpos] at hb
      obtain ⟨hbcanon, hub⟩ := decodeUpdate_some_canon hb
      subst hub
      refine ⟨applyDocUpdate emptyDoc base, ?_, ?_⟩
      · rw [CustomMongoPersistence.scratchFromExisting, if_pos hpos, hb]
      · rw [applyDocUpdate_ops hb]
        exact mergeOps_nil ((isCanon_iff _).mp hbcanon)
    · rw [if_neg hpos] at hb
      cases hb
      refine ⟨emptyDoc, ?_, rfl⟩
      rw [CustomMongoPersistence.scratchFromExisting, if_neg hpos]

theorem commitMerged_some {docName : String} {update : List Nat} {store : Store} {now : Nat}
    {temp : YDoc} {u : List Nat} (h : decodeUpdate update = some u) :
    CustomMongoPersistence.commitMerged docName update store now (some temp)
      = Function.update store docName (some
          { snapshot := some (.buffer (encodeStateAsUpdate (applyDocUpdate temp update))),
            updatedAt := now }) := by
  rw [CustomMongoPersistence.commitMerged, h]

/-- Claim C4: `storeUpdate` performs read-merge-write: it decodes the
currently persisted snapshot into a scratch document (treated as empty
when no prior record exists or the stored snapshot is empty or of an
unusable shape), applies the delta, re-encodes the scratch document's
full state and upserts exactly that encoding for this id with a
refreshed `updatedAt`, leaving every other id untouched. -/
theorem storeUpdate_read_merge_write (docName : String) (update : List Nat) (store : Store)
    (now : Nat) (u base : List Nat)
    (hu : decodeUpdate update = some u)
    (hb : storedMergeBase (store docName) = some base) :
    CustomMongoPersistence.storeUpdate docName update store now
      = Function.update store docName (some
          { snapshot := some (.buffer (mergeOps u base)), updatedAt := now }) := by
  obtain ⟨hucanon, huu⟩ := decodeUpdate_some_canon hu
  rw [huu]
  have hu2 : decodeUpdate update = some update := by rw [hu, huu]
  obtain ⟨temp, hscr, hops⟩ := scratchFromExisting_of_mergeBase hb
  rw [CustomMongoPersistence.storeUpdate, hscr, commitMerged_some hu2,
    show encodeStateAsUpdate (applyDocUpdate temp update) = mergeOps update temp.ops
      from applyDocUpdate_ops hu2,
    hops]

/-- A store with a prior record whose snapshot decodes to two
operations. -/
def priorStore : Store :=
  fun i => if i = "docC" then some { snapshot := some (.buffer [1, 5]), updatedAt := 0 }
  else none

theorem storeUpdate_read_merge_write_witness :
    CustomMongoPersistence.storeUpdate "docC" [3] priorStore 9
      = Function.update priorStore "docC" (some
          { snapshot := some (.buffer (mergeOps [3] [1, 5])), updatedAt := 9 }) :=
  storeUpdate_read_merge_write "docC" [3] priorStore 9 [3] [1, 5] (by rfl) (by decide)

/-! ## Claim theorems: the bindState update listener and its guard window

`bindState` registers an update listener guarded by the `isInitialLoad`
flag, then starts a fixed-delay timer that clears the flag.  The
listener's behaviour is modelled as a fold over the sequence of events
it observes: document update events and the guard timer firing. -/

/-- An event observed by the `bindState` update listener: an update
fired on the in-memory document (carrying the update bytes), or the
expiry of the fixed-delay guard timer (`setTimeout` clearing
`isInitialLoad`). -/
inductive BindEvent
  | docUpdate (u : List Nat)
  | guardElapsed
deriving DecidableEq

/-- Whether an event is the guard timer firing. -/
def BindEvent.isGuard : BindEvent → Bool
  | .guardElapsed => true
  | .docUpdate _ => false

/-- The listener's state: the `isInitialLoad` flag and the log of
`storeUpdate` (storeDelta) calls it has made, in order. -/
structure BindListenerState where
  isInitialLoad : Bool
  storeDeltaCalls : List (List Nat)
deriving DecidableEq

/-- One step of the `bindState` update listener: during the initial
load, update events are skipped (no `storeUpdate` call); afterwards
every update event appends a `storeUpdate` call; the guard timer
clears `isInitialLoad`. -/
def bindStep (s : BindListenerState) : BindEvent → BindListenerState
  | .docUpdate u =>
    if s.isInitialLoad then s
    else { s with storeDeltaCalls := s.storeDeltaCalls ++ [u] }
  | .guardElapsed => { s with isInitialLoad := false }

/-- Run the listener from its initial state (`isInitialLoad = true`, no
calls yet) over a sequence of events. -/
def bindRun (events : List BindEvent) : BindListenerState :=
  events.foldl bindStep { isInitialLoad := true, storeDeltaCalls := [] }

/-- The update payloads among a sequence of events. -/
def updatesOf (events : List BindEvent) : List (List Nat) :=
  events.filterMap (fun e =>
    match e with
    | .docUpdate u => some u
    | .guardElapsed => none)

/-- The update payloads that occur strictly after the first expiry of
the guard timer. -/
def updatesAfterGuard (events : List BindEvent) : List (List Nat) :=
  updatesOf (events.dropWhile (fun e => !e.isGuard))

theorem bindRun_loaded :
    ∀ (events : List BindEvent) (calls : List (List Nat)),
      (events.foldl bindStep ⟨false, calls⟩).storeDeltaCalls = calls ++ updatesOf events
  | [], calls => by simp [updatesOf]
  | .docUpdate u :: events, calls => by
    show (events.foldl bindStep ⟨false, calls ++ [u]⟩).storeDeltaCalls = _
    rw [bindRun_loaded events (calls ++ [u])]
    simp [updatesOf]
  | .guardElapsed :: events, calls => by
    show (events.foldl bindStep ⟨false, calls⟩).storeDeltaCalls = _
    rw [bindRun_loaded events calls]
    simp [updatesOf]

theorem bindRun_initial :
    ∀ (events : List BindEvent) (calls : List (List Nat)),
      (events.foldl bindStep ⟨true, calls⟩).storeDeltaCalls
        = calls ++ updatesAfterGuard events
  | [], calls => by simp [updatesAfterGuard, updatesOf]
  | .docUpdate u :: events, calls => by
    show (events.foldl bindStep ⟨true, calls⟩).storeDeltaCalls = _
    rw [bindRun_initial events calls]
    simp [updatesAfterGuard, List.dropWhile, BindEvent.isGuard]
  | .guardElapsed :: events, calls => by
    show (events.foldl bindStep ⟨false, calls⟩).storeDeltaCalls = _
    rw [bindRun_loaded events calls]
    simp [updatesAfterGuard, List.dropWhile, BindEvent.isGuard, updatesOf]

/-- Claim C2: for any sequence of events the `bindState` listener
observes, the `storeUpdate` (storeDelta) calls it makes are exactly the
update events fired strictly after the guard window elapses: updates
during the guard window are never persisted, and after it every update
event, regardless of origin, triggers a `storeUpdate` call. -/
theorem bindState_guard_window (events : List BindEvent) :
    (bindRun events).storeDeltaCalls = updatesAfterGuard events := by
  rw [bindRun, bindRun_initial events []]
  simp

/-! ## Claim theorems: process shutdown (SIGINT/SIGTERM handlers) -/

/-- The externally visible actions a shutdown handler can perform. -/
inductive ShutdownAction
  | stopAcceptingNewConnections
  | flushAllOpenDocuments
  | releasePersistenceConnection
  | exitProcess
deriving DecidableEq

/-- The SIGINT handler's action sequence: `await mdb.destroy()` (release
the persistence connection), then `server.close(...)` (stop accepting
new connections), then `process.exit(0)` from the close callback.  No
explicit flush of open documents appears in the handler. -/
def sigintHandlerActions : List ShutdownAction :=
  [.releasePersistenceConnection, .stopAcceptingNewConnections, .exitProcess]

/-- The SIGTERM handler's action sequence (identical body). -/
def sigtermHandlerActions : List ShutdownAction :=
  [.releasePersistenceConnection, .stopAcceptingNewConnections, .exitProcess]

/-- Position of an action in a handler's sequence. -/
def actionPos (a : ShutdownAction) (l : List ShutdownAction) : Nat :=
  l.findIdx (fun b => b == a)

/-- Claim C8 counterexample: the claimed phase order — stop accepting
connections, then flush all open documents, then release the
persistence connection — does not hold of the SIGINT handler: no flush
action occurs in it at all, so the claimed ordering is unsatisfiable on
the handler's actual action sequence. -/
theorem shutdown_order_counterexample :
    ¬ (ShutdownAction.flushAllOpenDocuments ∈ sigintHandlerActions
        ∧ actionPos .stopAcceptingNewConnections sigintHandlerActions
            < actionPos .flushAllOpenDocuments sigintHandlerActions
        ∧ actionPos .flushAllOpenDocuments sigintHandlerActions
            < actionPos .releasePersistenceConnection sigintHandlerActions) := by
  decide

/-- Claim C8 (amended): both signal handlers release the persistence
connection first, then stop accepting new connections, and exit last;
neither performs an explicit flush of open documents. -/
theorem shutdown_order :
    actionPos .releasePersistenceConnection sigintHandlerActions
        < actionPos .stopAcceptingNewConnections sigintHandlerActions
      ∧ actionPos .stopAcceptingNewConnections sigintHandlerActions
        < actionPos .exitProcess sigintHandlerActions
      ∧ ShutdownAction.flushAllOpenDocuments ∉ sigintHandlerActions
      ∧ sigtermHandlerActions = sigintHandlerActions := by
  decide

/-! ## Claim theorems: connection handshake and document-id validation -/

/-- A persistence-store operation a connection can reach. -/
inductive StoreCall
  | loadCall (id : String)
  | storeDeltaCall (id : String)
  | writeFullStateCall (id : String)
deriving DecidableEq

/-- The outcome of the WebSocket handshake for a connection. -/
inductive HandshakeOutcome
  | accepted
  | rejectedInvalidDocId
deriving DecidableEq

/-- Modelled from the spec: the store's native primary-key type is the
MongoDB ObjectId, whose canonical string form is 24 hexadecimal
characters; an id not of this form cannot be converted.  (The conversion
validity check itself lives in the WebSocket connection handler,
`setupWSConnection` in `src/websocket/utils.ts`, which is not among the
sources here.) -/
def isValidObjectIdString (s : String) : Bool :=
  s.length == 24 && s.data.all (fun c =>
    c.isDigit || (decide ('a' ≤ c) && decide (c ≤ 'f'))
      || (decide ('A' ≤ c) && decide (c ≤ 'F')))

/-- Modelled from the spec: the connection handler validates the
document id before any persistence access — "an ID that cannot be
converted to that type is a hard input error (the connection is rejected
before reaching the store)", the rejection closing the socket with the
`Invalid document id` reason the frontend's close handler matches on.
The handler returns its outcome and the store operations it reaches. -/
def handleIncomingConnection (docName : String) : HandshakeOutcome × List StoreCall :=
  if isValidObjectIdString docName then (.accepted, [.loadCall docName])
  else (.rejectedInvalidDocId, [])

/-- Claim C9: a document id that cannot be converted to the store's
native primary-key type is rejected at the handshake, and no store
operation (load, storeDelta, writeFullState) is reached with that id. -/
theorem invalid_docid_rejected_before_store (docName : String)
    (h : isValidObjectIdString docName = false) :
    handleIncomingConnection docName = (.rejectedInvalidDocId, []) := by
  rw [handleIncomingConnection, if_neg]
  rw [h]
  exact Bool.false_ne_true

theorem invalid_docid_rejected_before_store_witness :
    handleIncomingConnection "doc1" = (.rejectedInvalidDocId, []) :=
  invalid_docid_rejected_before_store "doc1" (by decide)

/-! ## Claim theorems: the extractor's registry side effects -/

theorem getTextShared_snd (d : YDoc) (name : String) :
    (getTextShared d name).2 = instantiateShare d name := rfl

/-- Claim C10 (amended): `extractTextFromYDoc` always returns a string
(it is total) and never shrinks the share registry, but it is not a pure
read: every name it probes before returning is instantiated when absent.
On a document with an empty share registry all four probed names are
left instantiated; when an earlier probe finds content the cascade
returns early and later names stay uninstantiated. -/
theorem extractor_registry_side_effect :
    (∀ (d : YDoc) (name : String), name ∈ d.shareNames →
        name ∈ (extractTextFromYDoc d).2.shareNames)
      ∧ (extractTextFromYDoc emptyDoc).2.shareNames
        = ["content", "lexical", "root", "editor"]
      ∧ emptyDoc.shareNames = [] := by
  refine ⟨?_, by decide, by decide⟩
  intro d name h
  by_cases h1 : 0 < (shareText d.ops "content").length
  · simp only [extractTextFromYDoc, if_pos h1, getTextShared_snd]
    exact mem_shareNames_instantiateShare _ h
  · by_cases h2 : 0 < (shareText d.ops "lexical").length
    · simp only [extractTextFromYDoc, if_neg h1, if_pos h2, getTextShared_snd]
      exact mem_shareNames_instantiateShare _ (mem_shareNames_instantiateShare _ h)
    · by_cases h3 : hasNonWhitespace (shareText d.ops "root") = true
      · simp only [extractTextFromYDoc, if_neg h1, if_neg h2, if_pos h3, getTextShared_snd]
        exact mem_shareNames_instantiateShare _
          (mem_shareNames_instantiateShare _ (mem_shareNames_instantiateShare _ h))
      · by_cases h4 : 0 < (shareText d.ops "editor").length
        · simp only [extractTextFromYDoc, if_neg h1, if_neg h2, if_neg h3, if_pos h4,
            getTextShared_snd]
          exact mem_shareNames_instantiateShare _
            (mem_shareNames_instantiateShare _
              (mem_shareNames_instantiateShare _ (mem_shareNames_instantiateShare _ h)))
        · simp only [extractTextFromYDoc, if_neg h1, if_neg h2, if_neg h3, if_neg h4]
          exact mem_shareNames_instantiateShare _
            (mem_shareNames_instantiateShare _
              (mem_shareNames_instantiateShare _ (mem_shareNames_instantiateShare _ h)))

theorem extractor_registry_side_effect_witness :
    "root" ∈ (⟨[786], [], rfl⟩ : YDoc).shareNames
      ∧ "root" ∈ (extractTextFromYDoc ⟨[786], [], rfl⟩).2.shareNames :=
  ⟨by decide, extractor_registry_side_effect.1 ⟨[786], [], rfl⟩ "root" (by decide)⟩

/-- A document whose only content is visible text in the `root` shared
container (a single operation contributing the character `a`). -/
def rootContentDoc : YDoc := ⟨[786], [], rfl⟩

/-- Claim C10 counterexample: on a document whose share registry lacks
`content`, `lexical`, and `editor` but whose `root` container holds
text, extraction returns at the `root` probe, so `editor` is *not*
instantiated — the registry after extraction does not contain all the
claimed names. -/
theorem extractor_instantiation_counterexample :
    "content" ∉ rootContentDoc.shareNames
      ∧ "lexical" ∉ rootContentDoc.shareNames
      ∧ "editor" ∉ rootContentDoc.shareNames
      ∧ "editor" ∉ (extractTextFromYDoc rootContentDoc).2.shareNames := by
  decide
